import Mathlib

/-!
Verification development for the pyos spatial-index core: the Cython
Vector and Point classes (src/unnamed/part_000, a Cython .pyx file) and the
Quadtree, Children and quadtree_from_pairs definitions
(src/pyos/engine/ext/quadtree.pyx).

Python floats are modelled as exact rationals; the transcendental
operations (length, rotate, normalized) are modelled over the reals.
Python exceptions are modelled with Except PyErr.  The AABB class is not
part of the available sources (only its call sites are), so its
comparison predicates are modelled from the spec, as marked on each
definition.
-/

/-- The Python exceptions raised by the modelled code. -/
inductive PyErr where
  | typeError
  | indexError
  | valueError
  | zeroDivision
deriving DecidableEq, Repr

/-- The dynamic result type tag stored in Vector._rtype: the class object
Vector or Point. -/
inductive RType where
  | vector
  | point
deriving DecidableEq, Repr

/-- Model of the Cython Vector class (and its subclass Point, distinguished
by the rtype tag): fields _x, _y, _precision, _rtype of part_000.  The
cached _length and _dirty fields are not carried: length is modelled as the
pure function the cache memoizes. -/
structure Vec (a : Type) where
  x : a
  y : a
  precision : a
  rtype : RType
deriving DecidableEq, Repr

/-- The default precision 1e-6 used by Vector.__init__ and as the default
tolerance of almost_equal. -/
def defaultPrecision : ℚ := 1 / 1000000

/-- Calling self.rtype(a, b): constructing a Vector or Point through the
class stored in _rtype; either constructor leaves precision at its default
1e-6. -/
def Vec.build (t : RType) (xv yv : ℚ) : Vec ℚ :=
  ⟨xv, yv, defaultPrecision, t⟩

/-- Vector(x, y): Vector.__init__ with default precision, tagging the result
Vector. -/
def mkVector (xv yv : ℚ) : Vec ℚ := ⟨xv, yv, defaultPrecision, RType.vector⟩

/-- Point(x, y): Point.__init__ calls Vector.__init__(x, y) (default
precision) and then tags the result Point. -/
def mkPoint (xv yv : ℚ) : Vec ℚ := ⟨xv, yv, defaultPrecision, RType.point⟩

/-- A dynamically typed Python value as it can reach the Vector arithmetic
operators: a number (int or float), a tuple, a Vector or Point instance, or
any other object (modelled by pynone). -/
inductive PyVal where
  | num (q : ℚ)
  | tup (l : List PyVal)
  | vec (v : Vec ℚ)
  | pynone

/-- The check isinstance(o, tuple) and len(o) == 2 and isinstance(o[0],
(int, float)) and isinstance(o[1], (int, float)) used by __add__ and
__sub__; returns the two numbers when it passes. -/
def twoNums : List PyVal → Option (ℚ × ℚ)
  | [PyVal.num a, PyVal.num b] => some (a, b)
  | _ => none

/-- Vector.__add__ of part_000 (lines 173-189).  Cython passes the two
operands of + in order to the one slot function, so the function itself
dispatches on both shapes, exactly as the isinstance cascade does. -/
def vadd (s o : PyVal) : Except PyErr (Vec ℚ) :=
  match s, o with
  | PyVal.vec v, PyVal.num n => Except.ok (Vec.build v.rtype (v.x + n) (v.y + n))
  | PyVal.vec v, PyVal.vec w => Except.ok (Vec.build v.rtype (v.x + w.x) (v.y + w.y))
  | PyVal.num n, PyVal.vec w => Except.ok (Vec.build w.rtype (w.x + n) (w.y + n))
  | PyVal.vec v, PyVal.tup l =>
    match twoNums l with
    | some ab => Except.ok (Vec.build v.rtype (v.x + ab.1) (v.y + ab.2))
    | none => Except.error PyErr.typeError
  | PyVal.tup l, PyVal.vec w =>
    match twoNums l with
    | some ab => Except.ok (Vec.build w.rtype (w.x + ab.1) (w.y + ab.2))
    | none => Except.error PyErr.typeError
  | _, _ => Except.error PyErr.typeError

/-- Vector.__sub__ of part_000 (lines 191-207). -/
def vsub (s o : PyVal) : Except PyErr (Vec ℚ) :=
  match s, o with
  | PyVal.vec v, PyVal.vec w => Except.ok (Vec.build v.rtype (v.x - w.x) (v.y - w.y))
  | PyVal.vec v, PyVal.num n => Except.ok (Vec.build v.rtype (v.x - n) (v.y - n))
  | PyVal.num n, PyVal.vec w => Except.ok (Vec.build w.rtype (n - w.x) (n - w.y))
  | PyVal.vec v, PyVal.tup l =>
    match twoNums l with
    | some ab => Except.ok (Vec.build v.rtype (v.x - ab.1) (v.y - ab.2))
    | none => Except.error PyErr.typeError
  | PyVal.tup l, PyVal.vec w =>
    match twoNums l with
    | some ab => Except.ok (Vec.build w.rtype (ab.1 - w.x) (ab.2 - w.y))
    | none => Except.error PyErr.typeError
  | _, _ => Except.error PyErr.typeError

/-- Vector.__mul__ of part_000 (lines 209-215): only vector times scalar and
scalar times vector are accepted. -/
def vmul (s o : PyVal) : Except PyErr (Vec ℚ) :=
  match s, o with
  | PyVal.vec v, PyVal.num n => Except.ok (Vec.build v.rtype (v.x * n) (v.y * n))
  | PyVal.num n, PyVal.vec w => Except.ok (Vec.build w.rtype (n * w.x) (n * w.y))
  | _, _ => Except.error PyErr.typeError

/-- Vector.__truediv__ of part_000 (lines 217-223); a zero divisor raises
ZeroDivisionError in Python, modelled by PyErr.zeroDivision. -/
def vdiv (s o : PyVal) : Except PyErr (Vec ℚ) :=
  match s, o with
  | PyVal.vec v, PyVal.num n =>
    if n = 0 then Except.error PyErr.zeroDivision
    else Except.ok (Vec.build v.rtype (v.x / n) (v.y / n))
  | PyVal.num n, PyVal.vec w =>
    if w.x = 0 ∨ w.y = 0 then Except.error PyErr.zeroDivision
    else Except.ok (Vec.build w.rtype (n / w.x) (n / w.y))
  | _, _ => Except.error PyErr.typeError

/-- Vector.__floordiv__ of part_000 (lines 225-231); Python float floor
division is the floor of the exact quotient, and raises on a zero
divisor. -/
def vfloordiv (s o : PyVal) : Except PyErr (Vec ℚ) :=
  match s, o with
  | PyVal.vec v, PyVal.num n =>
    if n = 0 then Except.error PyErr.zeroDivision
    else Except.ok (Vec.build v.rtype (Int.floor (v.x / n) : ℤ) (Int.floor (v.y / n) : ℤ))
  | PyVal.num n, PyVal.vec w =>
    if w.x = 0 ∨ w.y = 0 then Except.error PyErr.zeroDivision
    else Except.ok (Vec.build w.rtype (Int.floor (n / w.x) : ℤ) (Int.floor (n / w.y) : ℤ))
  | _, _ => Except.error PyErr.typeError

/-- Vector.almost_equal of part_000 (lines 156-161), with the tolerance d
passed explicitly: d is replaced by its absolute value and the predicate is
a componentwise comparison; a non-vector operand raises TypeError. -/
def almost_equal (v : Vec ℚ) (o : PyVal) (d : ℚ) : Except PyErr Bool :=
  match o with
  | PyVal.vec w => Except.ok (decide (|v.x - w.x| ≤ |d| ∧ |v.y - w.y| ≤ |d|))
  | _ => Except.error PyErr.typeError

/-- A call v.almost_equal(other) with no explicit tolerance argument: the
cpdef declares double d=1e-6, a fixed constant default. -/
def almost_equal_default (v : Vec ℚ) (o : PyVal) : Except PyErr Bool :=
  almost_equal v o defaultPrecision

/-- Vector.__eq__ of part_000 (lines 233-234): defers to almost_equal with
the instance's own _precision. -/
def veq (v : Vec ℚ) (o : PyVal) : Except PyErr Bool :=
  almost_equal v o v.precision

/-- The operand shapes the spec says + and - accept: vector+scalar,
scalar+vector, vector+vector, vector+2-tuple and 2-tuple+vector (a 2-tuple
of numbers).  Spec-side definition, to be compared with the code. -/
def specAddShapes (s o : PyVal) : Bool :=
  match s, o with
  | PyVal.vec _, PyVal.num _ => true
  | PyVal.vec _, PyVal.vec _ => true
  | PyVal.num _, PyVal.vec _ => true
  | PyVal.vec _, PyVal.tup l => (twoNums l).isSome
  | PyVal.tup l, PyVal.vec _ => (twoNums l).isSome
  | _, _ => false

/-- The operand shapes the spec says * , / and // accept: vector-by-scalar
and scalar-by-vector only.  Spec-side definition. -/
def specMulShapes (s o : PyVal) : Bool :=
  match s, o with
  | PyVal.vec _, PyVal.num _ => true
  | PyVal.num _, PyVal.vec _ => true
  | _, _ => false

/-- Whether a modelled Python call raised TypeError. -/
def raisedTypeError {b : Type} : Except PyErr b → Bool
  | Except.error PyErr.typeError => true
  | _ => false

section RealVec

/-- Vector.length: the memoized sqrt(x ** 2 + y ** 2) of part_000
(lines 92-98), as the pure function the cache holds. -/
noncomputable def Vec.length (v : Vec ℝ) : ℝ := Real.sqrt (v.x ^ 2 + v.y ^ 2)

/-- radians of part_000 (lines 35-36). -/
noncomputable def radians (degrees : ℝ) : ℝ := (degrees / 180) * Real.pi

/-- Vector.rotate of part_000 (lines 120-129): the angle is negated before
conversion and the result is built with the Vector constructor directly
(default precision, Vector tag), not with self._rtype. -/
noncomputable def Vec.rotate (v : Vec ℝ) (degrees : ℝ) : Vec ℝ :=
  let a := radians (-degrees)
  let sa := Real.sin a
  let ca := Real.cos a
  ⟨ca * v.x - sa * v.y, sa * v.x + ca * v.y, (1 / 1000000 : ℝ), RType.vector⟩

/-- Vector.normalized of part_000 (lines 100-105): raises ValueError on a
zero-length vector, otherwise builds the result with the Vector constructor
directly (default precision, Vector tag). -/
noncomputable def Vec.normalized (v : Vec ℝ) : Except PyErr (Vec ℝ) :=
  if v.length ≠ 0 then
    Except.ok ⟨v.x / v.length, v.y / v.length, (1 / 1000000 : ℝ), RType.vector⟩
  else Except.error PyErr.valueError

end RealVec

/-- Python int() applied to a float: truncation toward zero. -/
def pyTrunc (q : ℚ) : ℤ := if 0 ≤ q then Int.floor q else Int.ceil q

/-- Python 3 round(x, 0): round half to even. -/
def pyRound (q : ℚ) : ℤ :=
  if q - Int.floor q = 1 / 2 then
    (if 2 ∣ Int.floor q then Int.floor q else Int.floor q + 1)
  else Int.floor (q + 1 / 2)

/-- Vector.asint of part_000 (lines 140-149): unlike rotate and normalized
it builds its result with self._rtype, so the tag propagates. -/
def Vec.asint (v : Vec ℚ) (rounding : Bool) : Vec ℚ :=
  if rounding then Vec.build v.rtype (pyRound v.x) (pyRound v.y)
  else Vec.build v.rtype (pyTrunc v.x) (pyTrunc v.y)

/-- C2 counterexample: the claim says v + p yields a Point for a Vector v
and Point p, but __add__ matches the branch isinstance(self, Vector) and
isinstance(other, Vector) first and builds with self.rtype, the left
operand's tag: Vector(0,0) + Point(1,1) is tagged Vector, not Point. -/
theorem C2_plus_result_type_counterexample :
    (vadd (PyVal.vec (mkVector 0 0)) (PyVal.vec (mkPoint 1 1))).map Vec.rtype =
      Except.ok RType.vector ∧ RType.vector ≠ RType.point :=
  ⟨rfl, by decide⟩

/-- C2 amended: the result of + is built with the result type of the LEFT
operand when both operands are Vector instances, and with the result type
of the unique Vector operand otherwise; hence p + v, p + (x,y) and
scalar + p yield Points, while v + p yields a plain Vector. -/
theorem C2_plus_result_type (v w : Vec ℚ) (n a b : ℚ) :
    (vadd (PyVal.vec v) (PyVal.vec w)).map Vec.rtype = Except.ok v.rtype ∧
    (vadd (PyVal.vec v) (PyVal.num n)).map Vec.rtype = Except.ok v.rtype ∧
    (vadd (PyVal.num n) (PyVal.vec w)).map Vec.rtype = Except.ok w.rtype ∧
    (vadd (PyVal.vec v) (PyVal.tup [PyVal.num a, PyVal.num b])).map Vec.rtype =
      Except.ok v.rtype ∧
    (vadd (PyVal.tup [PyVal.num a, PyVal.num b]) (PyVal.vec w)).map Vec.rtype =
      Except.ok w.rtype := by
  refine ⟨rfl, rfl, rfl, ?_, ?_⟩ <;> rfl

/-- C5 counterexample: the claim says a call with no explicit tolerance
uses the instance's construction precision; but the cpdef default is the
constant 1e-6.  For v = Vector(0, 0, precision=1) and w = Vector(1/2, 0),
the claim predicts True (1/2 is within tolerance 1), yet the code returns
False. -/
theorem C5_default_tolerance_counterexample :
    almost_equal_default ⟨0, 0, 1, RType.vector⟩ (PyVal.vec (mkVector (1/2) 0)) =
      Except.ok false ∧
    (|(0 : ℚ) - 1/2| ≤ |(1 : ℚ)| ∧ |(0 : ℚ) - 0| ≤ |(1 : ℚ)|) := by
  have h1 : |(0 : ℚ) - 1/2| = 1/2 := by
    rw [abs_sub_comm, abs_of_nonneg] <;> norm_num
  have h0 : |(0 : ℚ) - 0| = 0 := by
    rw [abs_of_nonneg] <;> norm_num
  have hd : |defaultPrecision| = 1/1000000 :=
    abs_of_nonneg (by norm_num [defaultPrecision])
  refine ⟨?_, ?_⟩
  · have hn : ¬ (|(0 : ℚ) - 1/2| ≤ |defaultPrecision| ∧
        |(0 : ℚ) - 0| ≤ |defaultPrecision|) := by
      rw [h1, hd]
      rintro ⟨c1, -⟩
      norm_num at c1
    exact congrArg Except.ok (decide_eq_false hn)
  · rw [h1, h0, abs_of_nonneg (by norm_num : (0:ℚ) ≤ 1)]
    norm_num

/-- C5 amended: almost_equal with no explicit tolerance uses the constant
default 1e-6 (not the instance's precision); with an explicit tolerance d
the predicate is componentwise comparison against the absolute value of d;
a non-vector operand raises TypeError; and == defers to almost_equal with
the instance's own precision. -/
theorem C5_almost_equal (v w : Vec ℚ) (d q : ℚ) (l : List PyVal) :
    almost_equal_default v (PyVal.vec w) =
      Except.ok (decide (|v.x - w.x| ≤ 1/1000000 ∧ |v.y - w.y| ≤ 1/1000000)) ∧
    almost_equal v (PyVal.vec w) d =
      Except.ok (decide (|v.x - w.x| ≤ |d| ∧ |v.y - w.y| ≤ |d|)) ∧
    almost_equal v (PyVal.num q) d = Except.error PyErr.typeError ∧
    almost_equal v (PyVal.tup l) d = Except.error PyErr.typeError ∧
    almost_equal v PyVal.pynone d = Except.error PyErr.typeError ∧
    veq v (PyVal.vec w) =
      Except.ok (decide (|v.x - w.x| ≤ |v.precision| ∧ |v.y - w.y| ≤ |v.precision|)) := by
  refine ⟨?_, rfl, rfl, rfl, rfl, rfl⟩
  have h : |defaultPrecision| = 1/1000000 :=
    abs_of_nonneg (by norm_num [defaultPrecision])
  show Except.ok (decide (|v.x - w.x| ≤ |defaultPrecision| ∧
      |v.y - w.y| ≤ |defaultPrecision|)) = _
  rw [h]

theorem raisedTypeError_vadd (s o : PyVal) :
    raisedTypeError (vadd s o) = !specAddShapes s o := by
  cases s <;> cases o <;> try rfl
  case vec.tup v l =>
    cases h : twoNums l <;> simp [vadd, specAddShapes, h, raisedTypeError]
  case tup.vec l w =>
    cases h : twoNums l <;> simp [vadd, specAddShapes, h, raisedTypeError]

theorem raisedTypeError_vsub (s o : PyVal) :
    raisedTypeError (vsub s o) = !specAddShapes s o := by
  cases s <;> cases o <;> try rfl
  case vec.tup v l =>
    cases h : twoNums l <;> simp [vsub, specAddShapes, h, raisedTypeError]
  case tup.vec l w =>
    cases h : twoNums l <;> simp [vsub, specAddShapes, h, raisedTypeError]

theorem raisedTypeError_vdiv (s o : PyVal) :
    raisedTypeError (vdiv s o) = !specMulShapes s o := by
  cases s <;> cases o <;> try rfl
  case vec.num v n =>
    simp only [vdiv, specMulShapes]
    split <;> rfl
  case num.vec n w =>
    simp only [vdiv, specMulShapes]
    split <;> rfl

theorem raisedTypeError_vfloordiv (s o : PyVal) :
    raisedTypeError (vfloordiv s o) = !specMulShapes s o := by
  cases s <;> cases o <;> try rfl
  case vec.num v n =>
    simp only [vfloordiv, specMulShapes]
    split <;> rfl
  case num.vec n w =>
    simp only [vfloordiv, specMulShapes]
    split <;> rfl

/-- C9: + and - raise TypeError exactly outside the five symmetric shapes
vector+scalar, scalar+vector, vector+vector, vector+2-tuple and
2-tuple+vector, while the operators for multiplication, division and floor
division raise TypeError exactly outside vector-by-scalar and
scalar-by-vector; in particular vector-by-vector multiplication and
division are type errors. -/
theorem C9_operator_shapes (s o : PyVal) :
    raisedTypeError (vadd s o) = !specAddShapes s o ∧
    raisedTypeError (vsub s o) = !specAddShapes s o ∧
    raisedTypeError (vmul s o) = !specMulShapes s o ∧
    raisedTypeError (vdiv s o) = !specMulShapes s o ∧
    raisedTypeError (vfloordiv s o) = !specMulShapes s o := by
  refine ⟨raisedTypeError_vadd s o, raisedTypeError_vsub s o, ?_,
    raisedTypeError_vdiv s o, raisedTypeError_vfloordiv s o⟩
  cases s <;> cases o <;> rfl

/-- C10: rotate and normalized build their result with the Vector
constructor directly, so their result is always tagged as a plain Vector
even when the receiver is a Point; asint, by contrast, builds with
self._rtype and preserves the tag. -/
theorem C10_rotate_normalized_lose_point (v : Vec ℝ) (d : ℝ) (u : Vec ℚ) (r : Bool) :
    (v.rotate d).rtype = RType.vector ∧
    v.normalized.map Vec.rtype = v.normalized.map (fun _ => RType.vector) ∧
    (u.asint r).rtype = u.rtype := by
  refine ⟨rfl, ?_, ?_⟩
  · unfold Vec.normalized
    split <;> rfl
  · unfold Vec.asint
    cases r <;> rfl

/-!  The quadtree of src/pyos/engine/ext/quadtree.pyx. -/

/-- A raw 4-tuple box (x0, y0, x1, y1) as passed around by the Python
code. -/
structure Box4 where
  x0 : ℚ
  y0 : ℚ
  x1 : ℚ
  y1 : ℚ
deriving DecidableEq, Repr

/-- Modelled from the spec: the AABB class source is missing from the
repository; spec section 4.3 specifies construction from two opposite
corners normalized so min is at most max on each axis, with the box
4-tuple accessor. -/
structure AABB where
  minX : ℚ
  minY : ℚ
  maxX : ℚ
  maxY : ℚ
deriving DecidableEq, Repr

/-- Modelled from the spec: AABB construction normalizes reversed
corners. -/
def AABB.ofBox (b : Box4) : AABB :=
  ⟨min b.x0 b.x1, min b.y0 b.y1, max b.x0 b.x1, max b.y0 b.y1⟩

/-- Modelled from the spec: the box property, the 4-tuple representation. -/
def AABB.box (a : AABB) : Box4 := ⟨a.minX, a.minY, a.maxX, a.maxY⟩

/-- A position stored in or queried against the quadtree: a Point or an
AABB (a 2-tuple position is converted to a Point by the code paths the
claims concern). -/
inductive Pos where
  | pt (x y : ℚ)
  | box (b : Box4)
deriving DecidableEq, Repr

/-- Whether the position is an AABB: the isinstance(pos, AABB) tests of
get_items. -/
def Pos.isBox : Pos → Bool
  | Pos.pt _ _ => false
  | Pos.box _ => true

/-- Modelled from the spec: the containment-for-descent predicate, written
aabb <= position in the code (spec section 4.3): true iff the position lies
fully within or on the boundary of the region. -/
def aabbLePos (a : AABB) (p : Pos) : Bool :=
  match p with
  | Pos.pt x y =>
    decide (a.minX ≤ x ∧ x ≤ a.maxX ∧ a.minY ≤ y ∧ y ≤ a.maxY)
  | Pos.box b =>
    let nb := AABB.ofBox b
    decide (a.minX ≤ nb.minX ∧ nb.maxX ≤ a.maxX ∧ a.minY ≤ nb.minY ∧ nb.maxY ≤ a.maxY)

/-- Modelled from the spec: the inclusive may-overlap predicate, written
aabb >= pos in the code (spec section 4.3): for a point, inclusive
containment; for a box, true iff the regions share any area or boundary. -/
def aabbGePos (a : AABB) (p : Pos) : Bool :=
  match p with
  | Pos.pt x y =>
    decide (a.minX ≤ x ∧ x ≤ a.maxX ∧ a.minY ≤ y ∧ y ≤ a.maxY)
  | Pos.box b =>
    let nb := AABB.ofBox b
    decide (a.minX ≤ nb.maxX ∧ nb.minX ≤ a.maxX ∧ a.minY ≤ nb.maxY ∧ nb.minY ≤ a.maxY)

/-- Modelled from the spec: the strict predicate, written a > p in the
code's final filter (spec section 4.3, strict non-boundary containment when
overlap is false).  For a point operand: the point lies strictly inside a.
For a box operand: a lies strictly inside the box, the orientation forced
by the worked example of spec section 8 (and the doctest of quadtree.pyx),
where a query box strictly inside a stored box must match. -/
def aabbGtPos (a : AABB) (p : Pos) : Bool :=
  match p with
  | Pos.pt x y =>
    decide (a.minX < x ∧ x < a.maxX ∧ a.minY < y ∧ y < a.maxY)
  | Pos.box b =>
    let nb := AABB.ofBox b
    decide (nb.minX < a.minX ∧ a.maxX < nb.maxX ∧ nb.minY < a.minY ∧ a.maxY < nb.maxY)

/-- The center x coordinate computed by Children.__init__. -/
def centerX (b : Box4) : ℚ := (b.x1 - b.x0) / 2 + b.x0

/-- The center y coordinate computed by Children.__init__. -/
def centerY (b : Box4) : ℚ := (b.y1 - b.y0) / 2 + b.y0

/-- The ul quadrant AABB of Children.__init__. -/
def ulBox (b : Box4) : AABB := AABB.ofBox ⟨b.x0, b.y0, centerX b, centerY b⟩

/-- The ur quadrant AABB of Children.__init__. -/
def urBox (b : Box4) : AABB := AABB.ofBox ⟨centerX b, b.y0, b.x1, centerY b⟩

/-- The dl quadrant AABB of Children.__init__. -/
def dlBox (b : Box4) : AABB := AABB.ofBox ⟨b.x0, centerY b, centerX b, b.y1⟩

/-- The dr quadrant AABB of Children.__init__. -/
def drBox (b : Box4) : AABB := AABB.ofBox ⟨centerX b, centerY b, b.x1, b.y1⟩

/-- Children.__init__ of quadtree.pyx (lines 187-223): the four quadrant
AABBs of a box, split at the center point, in the fixed order ul, ur, dl,
dr. -/
def childrenBoxes (b : Box4) : List AABB :=
  [ulBox b, urBox b, dlBox b, drBox b]

/-- The four string names accepted by Children.__getitem__, plus a
representative of any other string. -/
inductive QuadName where
  | ul
  | ur
  | dl
  | dr
  | otherName
deriving DecidableEq, Repr

/-- A key passed to Children.__getitem__: an int, a str, or a value of any
other type (then isinstance(item, (int, str)) fails). -/
inductive ChildKey where
  | int (n : ℤ)
  | str (s : QuadName)
  | otherKey
deriving DecidableEq, Repr

/-- Children.__getitem__ of quadtree.pyx (lines 225-235): index 0/ul, 1/ur,
2/dl, 3/dr; anything else raises IndexError. -/
def childrenGet (b : Box4) (k : ChildKey) : Except PyErr AABB :=
  match k with
  | ChildKey.int 0 => Except.ok (ulBox b)
  | ChildKey.str QuadName.ul => Except.ok (ulBox b)
  | ChildKey.int 1 => Except.ok (urBox b)
  | ChildKey.str QuadName.ur => Except.ok (urBox b)
  | ChildKey.int 2 => Except.ok (dlBox b)
  | ChildKey.str QuadName.dl => Except.ok (dlBox b)
  | ChildKey.int 3 => Except.ok (drBox b)
  | ChildKey.str QuadName.dr => Except.ok (drBox b)
  | _ => Except.error PyErr.indexError

/-- The keys the spec says Children accepts: indices 0 to 3 and the four
quadrant names.  Spec-side definition. -/
def specValidChildKey (k : ChildKey) : Bool :=
  match k with
  | ChildKey.int n => decide (n = 0 ∨ n = 1 ∨ n = 2 ∨ n = 3)
  | ChildKey.str s => !(s = QuadName.otherName)
  | ChildKey.otherKey => false

/-- The Quadtree node of quadtree.pyx: its aabb is AABB(box) of the stored
raw box; child_nodes the list of populated children (empty or four);
the parallel lists items and positions modelled as one list of pairs
(the code only ever appends to both in lockstep); and max_level.  Levels
are modelled as naturals: every construction in the repository uses a
non-negative max_level. -/
inductive Quadtree (α : Type) where
  | node (box : Box4) (child_nodes : List (Quadtree α))
      (entries : List (α × Pos)) (max_level : ℕ)

/-- The raw box handed to __cinit__. -/
def Quadtree.box {α : Type} : Quadtree α → Box4
  | Quadtree.node b _ _ _ => b

/-- The child_nodes list. -/
def Quadtree.child_nodes {α : Type} : Quadtree α → List (Quadtree α)
  | Quadtree.node _ cs _ _ => cs

/-- The items and positions lists, zipped. -/
def Quadtree.entries {α : Type} : Quadtree α → List (α × Pos)
  | Quadtree.node _ _ es _ => es

/-- The max_level field. -/
def Quadtree.max_level {α : Type} : Quadtree α → ℕ
  | Quadtree.node _ _ _ lvl => lvl

/-- The aabb field: AABB(box). -/
def Quadtree.aabb {α : Type} (t : Quadtree α) : AABB := AABB.ofBox t.box

/-- Quadtree.__cinit__: a fresh node over a box with a given max_level and
no children or entries. -/
def Quadtree.empty {α : Type} (b : Box4) (lvl : ℕ) : Quadtree α :=
  Quadtree.node b [] [] lvl

/-- The four child nodes created by populate_children: one node per
quadrant box, with max_level one less than the parent's. -/
def freshChildren {α : Type} (b : Box4) (lvl : ℕ) : List (Quadtree α) :=
  (childrenBoxes b).map (fun a => Quadtree.node a.box [] [] (lvl - 1))

/-- Quadtree.populate_children of quadtree.pyx (lines 164-171): a no-op
when children already exist, otherwise creates the four quadrant
children. -/
def Quadtree.populate_children {α : Type} : Quadtree α → Quadtree α
  | Quadtree.node b cs es lvl =>
    if cs.isEmpty then Quadtree.node b (freshChildren b lvl) es lvl
    else Quadtree.node b cs es lvl

/-- The candidate children of a node inside the add loop: lines 145-147 of
quadtree.pyx populate the children if absent and then descend into
child_nodes. -/
def levelChildren {α : Type} (b : Box4) (lvl : ℕ) (cs : List (Quadtree α)) :
    List (Quadtree α) :=
  if cs.isEmpty then freshChildren b lvl else cs

/-- The eligibility test node.aabb <= pos of the add loop. -/
def Quadtree.eligible {α : Type} (pos : Pos) (t : Quadtree α) : Bool :=
  aabbLePos t.aabb pos

/-- Index of the first true in a list of test results: the scan order of
the for loop in Quadtree.add. -/
def firstTrue : List Bool → Option ℕ
  | [] => none
  | b :: rest => if b then some 0 else (firstTrue rest).map (· + 1)

/-- The first eligible node of a candidate list together with its index,
as found by the for loop of Quadtree.add. -/
def findChild {α : Type} (pos : Pos) (cs : List (Quadtree α)) :
    Option (ℕ × Quadtree α) :=
  (firstTrue (cs.map (Quadtree.eligible pos))).bind
    (fun i => (cs[i]?).map (fun c => (i, c)))

mutual

/-- Number of nodes of a tree, used as a termination measure for the
breadth-first collection of get_items. -/
def Quadtree.qsize {α : Type} : Quadtree α → ℕ
  | Quadtree.node _ cs _ _ => 1 + qsizeList cs

/-- Total node count of a worklist of trees. -/
def qsizeList {α : Type} : List (Quadtree α) → ℕ
  | [] => 0
  | c :: rest => Quadtree.qsize c + qsizeList rest

end

mutual

/-- Termination measure for the add loop: max_level for an unpopulated
node, one more than the largest child measure otherwise. -/
def Quadtree.qmeasure {α : Type} : Quadtree α → ℕ
  | Quadtree.node _ cs _ lvl =>
    if cs.isEmpty then lvl else qmeasureList cs + 1

/-- The maximum add-loop measure over a list of children. -/
def qmeasureList {α : Type} : List (Quadtree α) → ℕ
  | [] => 0
  | c :: rest => max (Quadtree.qmeasure c) (qmeasureList rest)

end

theorem qsize_node {α : Type} (b : Box4) (cs : List (Quadtree α)) (es : List (α × Pos))
    (lvl : ℕ) :
    (Quadtree.node b cs es lvl).qsize = 1 + qsizeList cs := by
  rw [Quadtree.qsize]

theorem qmeasure_node {α : Type} (b : Box4) (cs : List (Quadtree α)) (es : List (α × Pos))
    (lvl : ℕ) :
    (Quadtree.node b cs es lvl).qmeasure =
      if cs.isEmpty then lvl else qmeasureList cs + 1 := by
  rw [Quadtree.qmeasure]

theorem qmeasure_le_of_mem {α : Type} {c : Quadtree α} {cs : List (Quadtree α)}
    (h : c ∈ cs) : c.qmeasure ≤ qmeasureList cs := by
  induction cs with
  | nil => cases h
  | cons x xs ih =>
    rw [qmeasureList]
    rcases List.mem_cons.mp h with h | h
    · subst h; exact le_max_left _ _
    · exact le_trans (ih h) (le_max_right _ _)

theorem qmeasure_lt_of_mem {α : Type} {c : Quadtree α} {cs : List (Quadtree α)}
    (h : c ∈ cs) (b : Box4) (es : List (α × Pos)) (lvl : ℕ) :
    c.qmeasure < (Quadtree.node b cs es lvl).qmeasure := by
  rw [qmeasure_node]
  have hne : cs.isEmpty = false := by
    cases cs
    · cases h
    · rfl
  rw [hne]
  simp only [Bool.false_eq_true, if_false]
  exact Nat.lt_succ_of_le (qmeasure_le_of_mem h)

theorem qmeasure_fresh {α : Type} {c : Quadtree α} {b : Box4} {lvl : ℕ}
    (h : c ∈ freshChildren b lvl) : c.qmeasure = lvl - 1 := by
  rcases List.mem_map.mp h with ⟨a, -, rfl⟩
  rw [qmeasure_node]
  rfl

theorem findChild_mem {α : Type} {pos : Pos} {cs : List (Quadtree α)}
    {ic : ℕ × Quadtree α} (h : findChild pos cs = some ic) : ic.2 ∈ cs := by
  unfold findChild at h
  cases hf : firstTrue (cs.map (Quadtree.eligible pos)) with
  | none =>
    rw [hf, Option.none_bind] at h
    cases h
  | some i =>
    rw [hf, Option.some_bind] at h
    rcases Option.map_eq_some'.mp h with ⟨c, hg, hic⟩
    cases hic
    exact List.getElem?_mem hg

theorem qmeasure_lt_levelChildren {α : Type} {c : Quadtree α}
    {b : Box4} {cs : List (Quadtree α)} {lvl : ℕ}
    (h : c ∈ levelChildren b lvl cs) (hlvl : lvl ≠ 0) (es : List (α × Pos)) :
    c.qmeasure < (Quadtree.node b cs es lvl).qmeasure := by
  unfold levelChildren at h
  cases he : cs.isEmpty with
  | false =>
    rw [he] at h
    simp only [Bool.false_eq_true, if_false] at h
    exact qmeasure_lt_of_mem h b es lvl
  | true =>
    rw [he] at h
    simp only [if_true] at h
    rw [qmeasure_node, he, if_pos rfl, qmeasure_fresh h]
    omega

/-- The loop body of Quadtree.add (lines 139-161 of quadtree.pyx) for an
eligible node: if max_level is zero the entry is appended here; otherwise
children are populated if absent and the first eligible child is descended
into; if no child is eligible the entry is appended at this node (the
parent variable of the loop). -/
def Quadtree.addLoop {α : Type} (obj : α) (pos : Pos) : Quadtree α → Quadtree α
  | Quadtree.node b cs es lvl =>
    if h0 : lvl = 0 then Quadtree.node b cs (es ++ [(obj, pos)]) lvl
    else
      match h : findChild pos (levelChildren b lvl cs) with
      | none => Quadtree.node b (levelChildren b lvl cs) (es ++ [(obj, pos)]) lvl
      | some ic =>
        Quadtree.node b
          ((levelChildren b lvl cs).set ic.1 (Quadtree.addLoop obj pos ic.2)) es lvl
termination_by t => t.qmeasure
decreasing_by
  exact qmeasure_lt_levelChildren (findChild_mem h) h0 _

/-- Quadtree.add of quadtree.pyx (lines 131-162): returns False, leaving
the tree unchanged, when the root is not an eligible container for pos,
and otherwise descends with the loop and returns True. -/
def Quadtree.add {α : Type} (t : Quadtree α) (obj : α) (pos : Pos) :
    Bool × Quadtree α :=
  if Quadtree.eligible pos t then (true, Quadtree.addLoop obj pos t)
  else (false, t)

theorem qsize_pos {α : Type} (t : Quadtree α) : 1 ≤ t.qsize := by
  cases t
  rw [qsize_node]
  omega

theorem qsizeList_append {α : Type} (l1 l2 : List (Quadtree α)) :
    qsizeList (l1 ++ l2) = qsizeList l1 + qsizeList l2 := by
  induction l1 with
  | nil => rw [List.nil_append, qsizeList]; omega
  | cons c rest ih =>
    rw [List.cons_append, qsizeList, qsizeList, ih]
    omega

theorem qsizeList_join_children {α : Type} (l : List (Quadtree α)) :
    qsizeList ((l.map Quadtree.child_nodes).flatten) + l.length = qsizeList l := by
  induction l with
  | nil => rfl
  | cons t rest ih =>
    rw [List.map_cons, List.flatten_cons, qsizeList, qsizeList_append, List.length_cons]
    cases t with
    | node b cs es lvl =>
      rw [qsize_node]
      simp only [Quadtree.child_nodes]
      omega

theorem qsizeList_filter_le {α : Type} (p : Quadtree α → Bool) (l : List (Quadtree α)) :
    qsizeList (l.filter p) ≤ qsizeList l := by
  induction l with
  | nil => exact le_refl _
  | cons c rest ih =>
    rw [List.filter_cons]
    cases p c
    · rw [qsizeList]
      simp only [Bool.false_eq_true, if_false]
      omega
    · simp only [if_true]
      rw [qsizeList, qsizeList]
      omega

theorem qsizeList_pos {α : Type} {l : List (Quadtree α)} (h : l ≠ []) :
    1 ≤ qsizeList l := by
  cases l with
  | nil => exact absurd rfl h
  | cons c rest =>
    rw [qsizeList]
    have := qsize_pos c
    omega

theorem collect_step_lt {α : Type} (p : Quadtree α → Bool) {ws : List (Quadtree α)}
    (h : ws ≠ []) :
    qsizeList (((ws.filter p).map Quadtree.child_nodes).flatten) < qsizeList ws := by
  have h1 := qsizeList_join_children (ws.filter p)
  have h2 := qsizeList_filter_le p ws
  cases hf : ws.filter p with
  | nil =>
    rw [hf] at h1
    simp only [List.map_nil, List.flatten_nil, List.length_nil] at h1 ⊢
    rw [← h1]
    exact qsizeList_pos h
  | cons c rest =>
    rw [hf] at h1 h2
    rw [List.length_cons] at h1
    omega

/-- The first while loop of Quadtree.get_items (lines 100-107 of
quadtree.pyx): breadth-first collection of the entries of every node whose
aabb passes the may-overlap test against pos, pruning failing subtrees. -/
def Quadtree.collectLoop {α : Type} (pos : Pos) (ws : List (Quadtree α)) :
    List (α × Pos) :=
  if hw : ws.isEmpty then []
  else
    let pass := ws.filter (fun t => aabbGePos t.aabb pos)
    (pass.map Quadtree.entries).flatten ++
      Quadtree.collectLoop pos ((pass.map Quadtree.child_nodes).flatten)
termination_by qsizeList ws
decreasing_by
  exact collect_step_lt _ (by simpa using hw)

/-- The per-entry filter of Quadtree.get_items (lines 108-127 of
quadtree.pyx), deciding whether a collected entry with stored position
ipos satisfies the query pos under the overlap flag.  When both positions
are points only the Vector almost_equal test with its default tolerance
1e-6 applies; otherwise the inclusive predicate is used when overlap is
set and the strict one when it is not. -/
def filterStep (pos : Pos) (overlap : Bool) (ipos : Pos) : Bool :=
  let add0 : Bool :=
    match pos, ipos with
    | Pos.pt x y, Pos.pt ix iy =>
      decide (|x - ix| ≤ |defaultPrecision| ∧ |y - iy| ≤ |defaultPrecision|)
    | _, _ => false
  if add0 then true
  else if overlap then
    match pos, ipos with
    | Pos.box qb, _ => aabbGePos (AABB.ofBox qb) ipos
    | Pos.pt _ _, Pos.box ib => aabbGePos (AABB.ofBox ib) pos
    | _, _ => false
  else
    match pos, ipos with
    | Pos.box qb, _ => aabbGtPos (AABB.ofBox qb) ipos
    | Pos.pt _ _, Pos.box ib => aabbGtPos (AABB.ofBox ib) pos
    | _, _ => false

/-- Quadtree.get_items of quadtree.pyx (lines 85-129): collect candidate
entries breadth-first, then keep the objects whose stored position passes
the filter, in collection order. -/
def Quadtree.get_items {α : Type} (t : Quadtree α) (pos : Pos) (overlap : Bool) :
    List α :=
  ((Quadtree.collectLoop pos [t]).filter (fun e => filterStep pos overlap e.2)).map
    Prod.fst

/-- The running bounds of the scan loop of quadtree_from_pairs. -/
structure Bounds where
  xmin : ℚ
  ymin : ℚ
  xmax : ℚ
  ymax : ℚ
deriving DecidableEq, Repr

/-- One iteration of the bounds scan: x_min = min(pos[0], pos[2], x_min)
and so on; an accumulator of none stands for the initial infinities, which
the first finite box replaces. -/
def updateBounds (b : Box4) : Option Bounds → Bounds
  | none => ⟨min b.x0 b.x1, min b.y0 b.y1, max b.x0 b.x1, max b.y0 b.y1⟩
  | some r =>
    ⟨min b.x0 (min b.x1 r.xmin), min b.y0 (min b.y1 r.ymin),
     max b.x0 (max b.x1 r.xmax), max b.y0 (max b.y1 r.ymax)⟩

/-- The bounds loop of quadtree_from_pairs (lines 259-263 of quadtree.pyx):
positions are indexed at 0 to 3, so a Point position raises IndexError
(Vector.__getitem__ accepts only 0, 1, x and y); box positions extend the
running bounds. -/
def scanBounds {α : Type} : List (Pos × α) → Option Bounds → Except PyErr (Option Bounds)
  | [], acc => Except.ok acc
  | (Pos.pt _ _, _) :: _, _ => Except.error PyErr.indexError
  | (Pos.box b, _) :: rest, acc => scanBounds rest (some (updateBounds b acc))

/-- quadtree_from_pairs of quadtree.pyx (lines 244-270): none on an empty
list; scan the bounds; none when the bounding area is zero (the infinite
case of the Python code cannot arise for the exact rationals modelling
finite floats); otherwise build a root over the bounds and add every pair
in input order. -/
def quadtree_from_pairs {α : Type} (pairs : List (Pos × α)) (max_level : ℕ) :
    Except PyErr (Option (Quadtree α)) :=
  if pairs.isEmpty then Except.ok none
  else
    match scanBounds pairs none with
    | Except.error e => Except.error e
    | Except.ok none => Except.ok none
    | Except.ok (some r) =>
      if (r.xmax - r.xmin) * (r.ymax - r.ymin) = 0 then Except.ok none
      else
        Except.ok (some (pairs.foldl (fun t e => (t.add e.2 e.1).2)
          (Quadtree.empty ⟨r.xmin, r.ymin, r.xmax, r.ymax⟩ max_level)))

/-- C8: Children deterministically yields the four sub-quadrants split at
the geometric center ((x0+x1)/2, (y0+y1)/2) of the box, in the fixed index
order 0 = upper-left, 1 = upper-right, 2 = lower-left, 3 = lower-right,
with the names ul, ur, dl, dr as aliases, and raises IndexError for every
other key. -/
theorem C8_children_quadrants (b : Box4) :
    childrenGet b (ChildKey.int 0) =
      Except.ok (AABB.ofBox ⟨b.x0, b.y0, (b.x0 + b.x1) / 2, (b.y0 + b.y1) / 2⟩) ∧
    childrenGet b (ChildKey.int 1) =
      Except.ok (AABB.ofBox ⟨(b.x0 + b.x1) / 2, b.y0, b.x1, (b.y0 + b.y1) / 2⟩) ∧
    childrenGet b (ChildKey.int 2) =
      Except.ok (AABB.ofBox ⟨b.x0, (b.y0 + b.y1) / 2, (b.x0 + b.x1) / 2, b.y1⟩) ∧
    childrenGet b (ChildKey.int 3) =
      Except.ok (AABB.ofBox ⟨(b.x0 + b.x1) / 2, (b.y0 + b.y1) / 2, b.x1, b.y1⟩) ∧
    childrenGet b (ChildKey.str QuadName.ul) = childrenGet b (ChildKey.int 0) ∧
    childrenGet b (ChildKey.str QuadName.ur) = childrenGet b (ChildKey.int 1) ∧
    childrenGet b (ChildKey.str QuadName.dl) = childrenGet b (ChildKey.int 2) ∧
    childrenGet b (ChildKey.str QuadName.dr) = childrenGet b (ChildKey.int 3) ∧
    (∀ k : ChildKey, specValidChildKey k = false →
      childrenGet b k = Except.error PyErr.indexError) := by
  have hx : centerX b = (b.x0 + b.x1) / 2 := by unfold centerX; ring
  have hy : centerY b = (b.y0 + b.y1) / 2 := by unfold centerY; ring
  refine ⟨?_, ?_, ?_, ?_, rfl, rfl, rfl, rfl, ?_⟩
  · simp [childrenGet, ulBox, hx, hy]
  · simp [childrenGet, urBox, hx, hy]
  · simp [childrenGet, dlBox, hx, hy]
  · simp [childrenGet, drBox, hx, hy]
  · intro k hk
    cases k with
    | int n =>
      unfold childrenGet
      split <;> simp_all [specValidChildKey]
    | str s =>
      cases s <;> first | rfl | simp_all [specValidChildKey]
    | otherKey => rfl

/-- Closed instance of the C8 error clause at the concrete key 5. -/
theorem C8_children_quadrants_witness :
    childrenGet ⟨0, 0, 1, 1⟩ (ChildKey.int 5) = Except.error PyErr.indexError :=
  (C8_children_quadrants ⟨0, 0, 1, 1⟩).2.2.2.2.2.2.2.2 (ChildKey.int 5) (by decide)

/-- C1: add never raises; it returns false exactly when the root region is
not an eligible container for pos (children cover only sub-regions of the
root, so no other node could be), and then the tree is left completely
unchanged. -/
theorem C1_add_failure (t : Quadtree ℕ) (obj : ℕ) (pos : Pos) :
    ((t.add obj pos).1 = false ↔ aabbLePos t.aabb pos = false) ∧
    ((t.add obj pos).1 = false → (t.add obj pos).2 = t) := by
  unfold Quadtree.add Quadtree.eligible
  cases h : aabbLePos t.aabb pos <;> simp [h]

/-- Closed instance of C1 at a position outside the unit square: the add
reports false and the tree is returned unchanged. -/
theorem C1_add_failure_witness :
    ((Quadtree.empty ⟨0, 0, 1, 1⟩ 8 : Quadtree ℕ).add 7 (Pos.pt 2 2)).2 =
      Quadtree.empty ⟨0, 0, 1, 1⟩ 8 :=
  (C1_add_failure (Quadtree.empty ⟨0, 0, 1, 1⟩ 8) 7 (Pos.pt 2 2)).2 (by decide)

/-- C3: in get_items, when both the query and a collected entry's stored
position are points, the filter decides inclusion purely by the Vector
almost_equal test against the default tolerance 1e-6, for either value of
the overlap flag; and an object is in the get_items result exactly when
some collected entry carries it and passes the filter. -/
theorem C3_point_point_filter (x y ix iy : ℚ) (ov : Bool) (t : Quadtree ℕ) (o : ℕ) :
    filterStep (Pos.pt x y) ov (Pos.pt ix iy) =
      decide (|x - ix| ≤ 1/1000000 ∧ |y - iy| ≤ 1/1000000) ∧
    (o ∈ t.get_items (Pos.pt x y) ov ↔
      ∃ ip, (o, ip) ∈ Quadtree.collectLoop (Pos.pt x y) [t] ∧
        filterStep (Pos.pt x y) ov ip = true) := by
  have hd : |defaultPrecision| = 1/1000000 :=
    abs_of_nonneg (by norm_num [defaultPrecision])
  constructor
  · simp only [filterStep, hd]
    cases h : decide (|x - ix| ≤ 1/1000000 ∧ |y - iy| ≤ 1/1000000) <;>
      cases ov <;> simp [h]
  · simp only [Quadtree.get_items, List.mem_map, List.mem_filter]
    constructor
    · rintro ⟨⟨a, ip⟩, ⟨hm, hf⟩, rfl⟩
      exact ⟨ip, hm, hf⟩
    · rintro ⟨ip, hm, hf⟩
      exact ⟨(o, ip), ⟨hm, hf⟩, rfl⟩

/-- Closed instance of C3 at concrete coordinates. -/
theorem C3_point_point_filter_witness :
    filterStep (Pos.pt 0 0) true (Pos.pt (1/10000000) 0) =
      decide (|(0 : ℚ) - 1/10000000| ≤ 1/1000000 ∧ |(0 : ℚ) - 0| ≤ 1/1000000) :=
  (C3_point_point_filter 0 0 (1/10000000) 0 true (Quadtree.empty ⟨0, 0, 1, 1⟩ 0) 0).1

/-- r covers the rectangle of acc: every later bound extension only
widens. -/
def boundsLe (a r : Bounds) : Prop :=
  r.xmin ≤ a.xmin ∧ r.ymin ≤ a.ymin ∧ a.xmax ≤ r.xmax ∧ a.ymax ≤ r.ymax

/-- The box b lies inside the bounds r. -/
def boxInBounds (b : Box4) (r : Bounds) : Prop :=
  r.xmin ≤ min b.x0 b.x1 ∧ r.ymin ≤ min b.y0 b.y1 ∧
    max b.x0 b.x1 ≤ r.xmax ∧ max b.y0 b.y1 ≤ r.ymax

theorem boundsLe_refl (r : Bounds) : boundsLe r r :=
  ⟨le_refl _, le_refl _, le_refl _, le_refl _⟩

theorem boundsLe_trans {a b c : Bounds} (h1 : boundsLe a b) (h2 : boundsLe b c) :
    boundsLe a c :=
  ⟨le_trans h2.1 h1.1, le_trans h2.2.1 h1.2.1,
   le_trans h1.2.2.1 h2.2.2.1, le_trans h1.2.2.2 h2.2.2.2⟩

theorem boxInBounds_mono {b : Box4} {a r : Bounds} (h1 : boxInBounds b a)
    (h2 : boundsLe a r) : boxInBounds b r :=
  ⟨le_trans h2.1 h1.1, le_trans h2.2.1 h1.2.1,
   le_trans h1.2.2.1 h2.2.2.1, le_trans h1.2.2.2 h2.2.2.2⟩

theorem updateBounds_extends (b : Box4) (a : Bounds) :
    boundsLe a (updateBounds b (some a)) := by
  unfold updateBounds boundsLe
  refine ⟨?_, ?_, ?_, ?_⟩ <;> simp

theorem box_in_updateBounds (b : Box4) (acc : Option Bounds) :
    boxInBounds b (updateBounds b acc) := by
  cases acc with
  | none =>
    exact ⟨le_refl _, le_refl _, le_refl _, le_refl _⟩
  | some a =>
    refine ⟨?_, ?_, ?_, ?_⟩
    · exact le_min (min_le_left _ _) (le_trans (min_le_right _ _) (min_le_left _ _))
    · exact le_min (min_le_left _ _) (le_trans (min_le_right _ _) (min_le_left _ _))
    · exact max_le (le_max_left _ _) (le_trans (le_max_left _ _) (le_max_right _ _))
    · exact max_le (le_max_left _ _) (le_trans (le_max_left _ _) (le_max_right _ _))

theorem scanBounds_spec {α : Type} :
    ∀ (l : List (Pos × α)) (acc : Option Bounds) (r : Bounds),
      scanBounds l acc = Except.ok (some r) →
      (∀ a, acc = some a → boundsLe a r) ∧
      (∀ e ∈ l, ∀ b, e.1 = Pos.box b → boxInBounds b r)
  | [], acc, r => by
    intro h
    unfold scanBounds at h
    cases acc with
    | none =>
      injection h with h2
      exact Option.noConfusion h2
    | some a =>
      injection h with h2
      injection h2 with h3
      subst h3
      refine ⟨?_, ?_⟩
      · intro a2 ha
        injection ha with ha2
        subst ha2
        exact boundsLe_refl _
      · intro e he
        cases he
  | (Pos.pt px py, o) :: rest, acc, r => by
    intro h
    cases h
  | (Pos.box b, o) :: rest, acc, r => by
    intro h
    rw [scanBounds] at h
    have ih := scanBounds_spec rest (some (updateBounds b acc)) r h
    have hup : boundsLe (updateBounds b acc) r := ih.1 _ rfl
    refine ⟨?_, ?_⟩
    · rintro a rfl
      exact boundsLe_trans (updateBounds_extends b a) hup
    · intro e he b2 hb2
      rcases List.mem_cons.mp he with rfl | he2
      · cases hb2
        exact boxInBounds_mono (box_in_updateBounds b acc) hup
      · exact ih.2 e he2 b2 hb2

theorem scanBounds_ne_ok_none {α : Type} :
    ∀ (l : List (Pos × α)) (a : Bounds),
      scanBounds l (some a) ≠ Except.ok none
  | [], a => by
    intro h
    injection h with h2
    exact Option.noConfusion h2
  | (Pos.pt px py, o) :: rest, a => by
    intro h
    cases h
  | (Pos.box b, o) :: rest, a => by
    intro h
    rw [scanBounds] at h
    exact scanBounds_ne_ok_none rest _ h

/-- C4 counterexample: the claim admits point positions, but the bounds
scan indexes every position at 2 and 3, which Vector.__getitem__ rejects,
so a single point-position pair raises IndexError where the claim predicts
a none return for the zero-area bounding box. -/
theorem C4_from_pairs_counterexample :
    quadtree_from_pairs [((Pos.pt 0 0 : Pos), (42 : ℕ))] 8 =
      Except.error PyErr.indexError ∧
    Except.error PyErr.indexError ≠
      (Except.ok none : Except PyErr (Option (Quadtree ℕ))) := by
  constructor
  · rfl
  · intro h
    cases h

theorem quadtree_from_pairs_none_iff {α : Type} (pairs : List (Pos × α)) (lvl : ℕ) :
    quadtree_from_pairs pairs lvl = Except.ok none ↔
      pairs = [] ∨ ∃ r2, scanBounds pairs none = Except.ok (some r2) ∧
        (r2.xmax - r2.xmin) * (r2.ymax - r2.ymin) = 0 := by
  unfold quadtree_from_pairs
  cases hp : pairs.isEmpty with
  | true =>
    rw [List.isEmpty_iff] at hp
    simp [hp]
  | false =>
    have hne : pairs ≠ [] := fun h => by rw [h] at hp; cases hp
    simp only [Bool.false_eq_true, if_false]
    cases hs : scanBounds pairs none with
    | error e =>
      constructor
      · intro h
        exact Except.noConfusion h
      · rintro (rfl | ⟨r2, hr2, -⟩)
        · exact absurd rfl hne
        · exact Except.noConfusion hr2
    | ok acc =>
      cases acc with
      | none =>
        exfalso
        cases pairs with
        | nil => exact hne rfl
        | cons e rest =>
          rcases e with ⟨p, o⟩
          cases p with
          | pt px py =>
            simp only [scanBounds] at hs
            exact Except.noConfusion hs
          | box b =>
            simp only [scanBounds] at hs
            exact scanBounds_ne_ok_none rest _ hs
      | some r2 =>
        constructor
        · intro h
          refine Or.inr ⟨r2, rfl, ?_⟩
          by_contra ha
          replace h : (if (r2.xmax - r2.xmin) * (r2.ymax - r2.ymin) = 0 then
              (Except.ok none : Except PyErr (Option (Quadtree α)))
            else Except.ok (some (pairs.foldl (fun t e => (t.add e.2 e.1).2)
              (Quadtree.empty ⟨r2.xmin, r2.ymin, r2.xmax, r2.ymax⟩ lvl)))) =
              Except.ok none := h
          rw [if_neg ha] at h
          injection h with h2
          exact Option.noConfusion h2
        · rintro (rfl | ⟨r3, hr3, ha3⟩)
          · exact absurd rfl hne
          · injection hr3 with h2
            injection h2 with h3
            subst h3
            show (if (r2.xmax - r2.xmin) * (r2.ymax - r2.ymin) = 0 then
                (Except.ok none : Except PyErr (Option (Quadtree α)))
              else Except.ok (some (pairs.foldl (fun t e => (t.add e.2 e.1).2)
                (Quadtree.empty ⟨r2.xmin, r2.ymin, r2.xmax, r2.ymax⟩ lvl)))) =
                Except.ok none
            rw [if_pos ha3]

/-- C4 amended: quadtree_from_pairs returns none exactly when the input is
empty or the computed bounding area is zero (the infinite case of the
Python code cannot arise for finite coordinates, modelled as exact
rationals); for a non-empty input whose positions are all boxes it scans
all four extreme coordinates into a bounding box enclosing every position,
builds a root node over it and adds every pair in input order; a pair
whose position is a point raises IndexError instead. -/
theorem C4_from_pairs (pairs : List (Pos × ℕ)) (lvl : ℕ) (r : Bounds) :
    quadtree_from_pairs ([] : List (Pos × ℕ)) lvl = Except.ok none ∧
    (quadtree_from_pairs pairs lvl = Except.ok none ↔
      pairs = [] ∨ ∃ r2, scanBounds pairs none = Except.ok (some r2) ∧
        (r2.xmax - r2.xmin) * (r2.ymax - r2.ymin) = 0) ∧
    (scanBounds pairs none = Except.ok (some r) →
      (∀ e ∈ pairs, ∀ b, e.1 = Pos.box b → boxInBounds b r) ∧
      ((r.xmax - r.xmin) * (r.ymax - r.ymin) ≠ 0 →
        quadtree_from_pairs pairs lvl =
          Except.ok (some (pairs.foldl (fun t e => (t.add e.2 e.1).2)
            (Quadtree.empty ⟨r.xmin, r.ymin, r.xmax, r.ymax⟩ lvl))))) := by
  refine ⟨rfl, quadtree_from_pairs_none_iff pairs lvl, ?_⟩
  intro hs
  refine ⟨(scanBounds_spec pairs none r hs).2, ?_⟩
  intro ha
  have hne : pairs ≠ [] := by
    intro h
    subst h
    injection hs with h2
    exact Option.noConfusion h2
  unfold quadtree_from_pairs
  rw [if_neg (by simpa using hne), hs]
  show (if (r.xmax - r.xmin) * (r.ymax - r.ymin) = 0 then
      (Except.ok none : Except PyErr (Option (Quadtree ℕ)))
    else Except.ok (some (pairs.foldl (fun t e => (t.add e.2 e.1).2)
      (Quadtree.empty ⟨r.xmin, r.ymin, r.xmax, r.ymax⟩ lvl)))) = _
  rw [if_neg ha]

/-- Closed instance of C4 at a two-box input with bounding box (0,0,3,3):
the helper builds the root over the scanned bounds and inserts both pairs
in order. -/
theorem C4_from_pairs_witness :
    quadtree_from_pairs
        [((Pos.box ⟨0, 0, 1, 1⟩ : Pos), (1 : ℕ)), ((Pos.box ⟨2, 2, 3, 3⟩ : Pos), (2 : ℕ))] 8 =
      Except.ok (some
        ([((Pos.box ⟨0, 0, 1, 1⟩ : Pos), (1 : ℕ)),
          ((Pos.box ⟨2, 2, 3, 3⟩ : Pos), (2 : ℕ))].foldl (fun t e => (t.add e.2 e.1).2)
          (Quadtree.empty ⟨(0 : ℚ), 0, 3, 3⟩ 8))) :=
  ((C4_from_pairs _ 8 ⟨0, 0, 3, 3⟩).2.2 (by rfl)).2 (by norm_num)

theorem set_getElem?_self {β : Type} :
    ∀ (l : List β) (i : ℕ) (v : β), l[i]? = some v → l.set i v = l
  | [], i, v => by
    intro h
    simp at h
  | x :: xs, 0, v => by
    intro h
    simp only [List.getElem?_cons_zero] at h
    injection h with h2
    subst h2
    rfl
  | x :: xs, i + 1, v => by
    intro h
    simp only [List.getElem?_cons_succ] at h
    simp only [List.set_cons_succ]
    rw [set_getElem?_self xs i v h]

theorem addLoop_lvl0 {α : Type} (obj : α) (pos : Pos) (b : Box4)
    (cs : List (Quadtree α)) (es : List (α × Pos)) :
    Quadtree.addLoop obj pos (Quadtree.node b cs es 0) =
      Quadtree.node b cs (es ++ [(obj, pos)]) 0 := by
  rw [Quadtree.addLoop]
  rw [dif_pos rfl]

theorem addLoop_none {α : Type} (obj : α) (pos : Pos) (b : Box4)
    (cs : List (Quadtree α)) (es : List (α × Pos)) {lvl : ℕ} (hlvl : lvl ≠ 0)
    (hf : findChild pos (levelChildren b lvl cs) = none) :
    Quadtree.addLoop obj pos (Quadtree.node b cs es lvl) =
      Quadtree.node b (levelChildren b lvl cs) (es ++ [(obj, pos)]) lvl := by
  rw [Quadtree.addLoop]
  rw [dif_neg hlvl]
  split
  · rfl
  · rename_i ic heq
    rw [hf] at heq
    cases heq

theorem addLoop_some {α : Type} (obj : α) (pos : Pos) (b : Box4)
    (cs : List (Quadtree α)) (es : List (α × Pos)) {lvl : ℕ} (hlvl : lvl ≠ 0)
    {ic : ℕ × Quadtree α} (hf : findChild pos (levelChildren b lvl cs) = some ic) :
    Quadtree.addLoop obj pos (Quadtree.node b cs es lvl) =
      Quadtree.node b
        ((levelChildren b lvl cs).set ic.1 (Quadtree.addLoop obj pos ic.2)) es lvl := by
  rw [Quadtree.addLoop]
  rw [dif_neg hlvl]
  split
  · rename_i heq
    rw [hf] at heq
    cases heq
  · rename_i ic2 heq
    rw [hf] at heq
    injection heq with h2
    subst h2
    rfl

theorem addLoop_box {α : Type} (obj : α) (pos : Pos) (t : Quadtree α) :
    (Quadtree.addLoop obj pos t).box = t.box := by
  cases t with
  | node b cs es lvl =>
    by_cases h0 : lvl = 0
    · subst h0
      rw [addLoop_lvl0]
      rfl
    · cases hf : findChild pos (levelChildren b lvl cs) with
      | none => rw [addLoop_none obj pos b cs es h0 hf]; rfl
      | some ic => rw [addLoop_some obj pos b cs es h0 hf]; rfl

theorem addLoop_max_level {α : Type} (obj : α) (pos : Pos) (t : Quadtree α) :
    (Quadtree.addLoop obj pos t).max_level = t.max_level := by
  cases t with
  | node b cs es lvl =>
    by_cases h0 : lvl = 0
    · subst h0
      rw [addLoop_lvl0]
      rfl
    · cases hf : findChild pos (levelChildren b lvl cs) with
      | none => rw [addLoop_none obj pos b cs es h0 hf]; rfl
      | some ic => rw [addLoop_some obj pos b cs es h0 hf]; rfl

theorem eligible_addLoop {α : Type} (p : Pos) (obj : α) (q : Pos) (t : Quadtree α) :
    Quadtree.eligible p (Quadtree.addLoop obj q t) = Quadtree.eligible p t := by
  unfold Quadtree.eligible Quadtree.aabb
  rw [addLoop_box]

theorem firstTrue_none_iff : ∀ l : List Bool, firstTrue l = none ↔ ∀ b ∈ l, b = false
  | [] => by simp [firstTrue]
  | b :: rest => by
    cases b with
    | true => simp [firstTrue]
    | false =>
      rw [firstTrue]
      simp only [if_false, Option.map_eq_none', Bool.false_eq_true]
      rw [firstTrue_none_iff rest]
      simp

theorem firstTrue_lt_length : ∀ {l : List Bool} {i : ℕ}, firstTrue l = some i → i < l.length
  | [], i => by
    intro h
    cases h
  | b :: rest, i => by
    intro h
    cases b with
    | true =>
      rw [firstTrue] at h
      simp only [if_true] at h
      injection h with h2
      subst h2
      simp
    | false =>
      rw [firstTrue] at h
      simp only [Bool.false_eq_true, if_false] at h
      rcases Option.map_eq_some'.mp h with ⟨j, hj, rfl⟩
      have := firstTrue_lt_length hj
      simp only [List.length_cons]
      omega

theorem findChild_none_iff {α : Type} (pos : Pos) (cs : List (Quadtree α)) :
    findChild pos cs = none ↔ ∀ c ∈ cs, Quadtree.eligible pos c = false := by
  unfold findChild
  cases hf : firstTrue (cs.map (Quadtree.eligible pos)) with
  | none =>
    rw [Option.none_bind]
    rw [firstTrue_none_iff] at hf
    simp only [true_iff]
    intro c hc
    exact hf _ (List.mem_map_of_mem _ hc)
  | some i =>
    rw [Option.some_bind]
    have hi : i < cs.length := by
      have := firstTrue_lt_length hf
      simpa using this
    have hg := List.getElem?_eq_getElem hi
    constructor
    · intro h
      rw [hg] at h
      cases h
    · intro h
      exfalso
      have hall : ∀ bl ∈ cs.map (Quadtree.eligible pos), bl = false := by
        intro bl hb
        rcases List.mem_map.mp hb with ⟨c, hc, rfl⟩
        exact h c hc
      rw [← firstTrue_none_iff] at hall
      rw [hall] at hf
      cases hf

theorem findChild_some_spec {α : Type} {pos : Pos} {cs : List (Quadtree α)}
    {ic : ℕ × Quadtree α} (h : findChild pos cs = some ic) :
    cs[ic.1]? = some ic.2 ∧
      firstTrue (cs.map (Quadtree.eligible pos)) = some ic.1 := by
  unfold findChild at h
  cases hf : firstTrue (cs.map (Quadtree.eligible pos)) with
  | none =>
    rw [hf, Option.none_bind] at h
    cases h
  | some i =>
    rw [hf, Option.some_bind] at h
    rcases Option.map_eq_some'.mp h with ⟨c, hg, hic⟩
    cases hic
    exact ⟨hg, rfl⟩

theorem childrenBoxes_length (b : Box4) : (childrenBoxes b).length = 4 := rfl

theorem freshChildren_length {α : Type} (b : Box4) (lvl : ℕ) :
    (freshChildren b lvl : List (Quadtree α)).length = 4 := rfl

theorem levelChildren_ne_nil {α : Type} (b : Box4) (lvl : ℕ)
    (cs : List (Quadtree α)) : levelChildren b lvl cs ≠ [] := by
  
  unfold levelChildren
  cases cs with
  | nil =>
    intro h
    cases h
  | cons c rest =>
    simp

theorem levelChildren_of_ne_nil {α : Type} (b : Box4) (lvl : ℕ)
    {cs : List (Quadtree α)} (h : cs ≠ []) : levelChildren b lvl cs = cs := by
  unfold levelChildren
  rw [if_neg]
  simpa using h

theorem map_eligible_set {α : Type} (p : Pos) {cs : List (Quadtree α)} {j : ℕ}
    {c x : Quadtree α} (hg : cs[j]? = some c)
    (he : Quadtree.eligible p x = Quadtree.eligible p c) :
    (cs.set j x).map (Quadtree.eligible p) = cs.map (Quadtree.eligible p) := by
  rw [List.map_set, he]
  apply set_getElem?_self
  rw [List.getElem?_map, hg]
  rfl

theorem findChild_set_none {α : Type} {p : Pos} {cs : List (Quadtree α)} {j : ℕ}
    {c x : Quadtree α} (hg : cs[j]? = some c)
    (he : Quadtree.eligible p x = Quadtree.eligible p c)
    (hf : findChild p cs = none) : findChild p (cs.set j x) = none := by
  unfold findChild at hf ⊢
  rw [map_eligible_set p hg he]
  cases hft : firstTrue (cs.map (Quadtree.eligible p)) with
  | none => rw [Option.none_bind]
  | some i =>
    rw [hft, Option.some_bind] at hf
    have hi : i < cs.length := by
      have := firstTrue_lt_length hft
      simpa using this
    rw [List.getElem?_eq_getElem hi] at hf
    cases hf

theorem findChild_set_ne {α : Type} {p : Pos} {cs : List (Quadtree α)} {i j : ℕ}
    {ci c x : Quadtree α} (hg : cs[j]? = some c)
    (he : Quadtree.eligible p x = Quadtree.eligible p c)
    (hne : j ≠ i) (hf : findChild p cs = some (i, ci)) :
    findChild p (cs.set j x) = some (i, ci) := by
  have hspec := findChild_some_spec hf
  unfold findChild
  rw [map_eligible_set p hg he, hspec.2, Option.some_bind]
  rw [List.getElem?_set_ne hne, hspec.1]
  rfl

theorem findChild_set_eq {α : Type} {p : Pos} {cs : List (Quadtree α)} {i : ℕ}
    {c x : Quadtree α} (hg : cs[i]? = some c)
    (he : Quadtree.eligible p x = Quadtree.eligible p c)
    (hf : findChild p cs = some (i, c)) :
    findChild p (cs.set i x) = some (i, x) := by
  have hspec := findChild_some_spec hf
  have hi : i < cs.length := by
    rw [List.getElem?_eq_some_iff] at hg
    exact hg.1
  unfold findChild
  rw [map_eligible_set p hg he, hspec.2, Option.some_bind]
  rw [List.getElem?_set_self (by simpa using hi)]
  rfl

/-- Two trees are equivalent when they coincide except for the order of
the entry lists at each node. -/
inductive EquivQ {α : Type} : Quadtree α → Quadtree α → Prop
  | node (b : Box4) (lvl : ℕ) (cs1 cs2 : List (Quadtree α))
      (es1 es2 : List (α × Pos)) :
      es1.Perm es2 → List.Forall₂ EquivQ cs1 cs2 →
      EquivQ (Quadtree.node b cs1 es1 lvl) (Quadtree.node b cs2 es2 lvl)

theorem equivQ_refl {α : Type} : ∀ t : Quadtree α, EquivQ t t
  | Quadtree.node b cs es lvl => by
    refine EquivQ.node b lvl cs cs es es (List.Perm.refl es) ?_
    rw [List.forall₂_same]
    intro x hx
    have := List.sizeOf_lt_of_mem hx
    exact equivQ_refl x
termination_by t => sizeOf t
decreasing_by
  simp only [Quadtree.node.sizeOf_spec]
  omega

theorem equivQ_of_eq {α : Type} {t1 t2 : Quadtree α} (h : t1 = t2) : EquivQ t1 t2 := by
  subst h
  exact equivQ_refl t1

theorem equivQ_box {α : Type} {t1 t2 : Quadtree α} (h : EquivQ t1 t2) :
    t1.box = t2.box := by
  cases h
  rfl

theorem equivQ_max_level {α : Type} {t1 t2 : Quadtree α} (h : EquivQ t1 t2) :
    t1.max_level = t2.max_level := by
  cases h
  rfl

theorem equivQ_entries_perm {α : Type} {t1 t2 : Quadtree α} (h : EquivQ t1 t2) :
    t1.entries.Perm t2.entries := by
  cases h
  assumption

theorem equivQ_children {α : Type} {t1 t2 : Quadtree α} (h : EquivQ t1 t2) :
    List.Forall₂ EquivQ t1.child_nodes t2.child_nodes := by
  cases h
  assumption

theorem forall₂_set {β : Type} {R : β → β → Prop} (hrefl : ∀ a, R a a) :
    ∀ (l : List β) (i : ℕ) {x y : β}, R x y → List.Forall₂ R (l.set i x) (l.set i y)
  | [], i, x, y => fun _ => List.Forall₂.nil
  | a :: rest, 0, x, y => fun h => List.Forall₂.cons h (List.forall₂_same.mpr fun c _ => hrefl c)
  | a :: rest, i + 1, x, y => fun h =>
    List.Forall₂.cons (hrefl a) (forall₂_set hrefl rest i h)

theorem set_ne_nil {β : Type} {l : List β} (h : l ≠ []) (i : ℕ) (x : β) :
    l.set i x ≠ [] := by
  cases l with
  | nil => exact absurd rfl h
  | cons a rest => cases i <;> simp

theorem addLoop_comm {α : Type} (o1 o2 : α) (p1 p2 : Pos) :
    ∀ t : Quadtree α,
      EquivQ (Quadtree.addLoop o1 p1 (Quadtree.addLoop o2 p2 t))
             (Quadtree.addLoop o2 p2 (Quadtree.addLoop o1 p1 t))
  | Quadtree.node b cs es lvl => by
    by_cases h0 : lvl = 0
    · subst h0
      rw [addLoop_lvl0, addLoop_lvl0, addLoop_lvl0, addLoop_lvl0]
      refine EquivQ.node _ _ _ _ _ _ ?_
        (List.forall₂_same.mpr fun c _ => equivQ_refl c)
      simp only [List.append_assoc, List.singleton_append]
      exact List.Perm.append_left es (List.Perm.swap _ _ _)
    · have hCne : levelChildren b lvl cs ≠ [] := levelChildren_ne_nil b lvl cs
      have hCeq : levelChildren b lvl (levelChildren b lvl cs) = levelChildren b lvl cs :=
        levelChildren_of_ne_nil b lvl hCne
      cases hf2 : findChild p2 (levelChildren b lvl cs) with
      | none =>
        rw [addLoop_none o2 p2 b cs es h0 hf2]
        cases hf1 : findChild p1 (levelChildren b lvl cs) with
        | none =>
          rw [addLoop_none o1 p1 b _ _ h0 (by rw [hCeq]; exact hf1)]
          rw [addLoop_none o1 p1 b cs es h0 hf1]
          rw [addLoop_none o2 p2 b _ _ h0 (by rw [hCeq]; exact hf2)]
          rw [hCeq]
          refine EquivQ.node _ _ _ _ _ _ ?_
            (List.forall₂_same.mpr fun c _ => equivQ_refl c)
          simp only [List.append_assoc, List.singleton_append]
          exact List.Perm.append_left es (List.Perm.swap _ _ _)
        | some ic =>
          obtain ⟨i, c⟩ := ic
          have hgi : (levelChildren b lvl cs)[i]? = some c := by
            simpa using (findChild_some_spec hf1).1
          rw [addLoop_some o1 p1 b _ _ h0 (by rw [hCeq]; exact hf1)]
          rw [hCeq]
          rw [addLoop_some o1 p1 b cs es h0 hf1]
          have hfB : findChild p2 (levelChildren b lvl
              ((levelChildren b lvl cs).set i (Quadtree.addLoop o1 p1 c))) = none := by
            rw [levelChildren_of_ne_nil b lvl (set_ne_nil hCne i _)]
            exact findChild_set_none hgi (eligible_addLoop p2 o1 p1 c) hf2
          rw [addLoop_none o2 p2 b _ _ h0 hfB]
          rw [levelChildren_of_ne_nil b lvl (set_ne_nil hCne i _)]
          exact equivQ_refl _
      | some jc =>
        obtain ⟨j, d⟩ := jc
        have hgj : (levelChildren b lvl cs)[j]? = some d := by
          simpa using (findChild_some_spec hf2).1
        rw [addLoop_some o2 p2 b cs es h0 hf2]
        cases hf1 : findChild p1 (levelChildren b lvl cs) with
        | none =>
          have hfA : findChild p1 (levelChildren b lvl
              ((levelChildren b lvl cs).set j (Quadtree.addLoop o2 p2 d))) = none := by
            rw [levelChildren_of_ne_nil b lvl (set_ne_nil hCne j _)]
            exact findChild_set_none hgj (eligible_addLoop p1 o2 p2 d) hf1
          rw [addLoop_none o1 p1 b _ _ h0 hfA]
          rw [levelChildren_of_ne_nil b lvl (set_ne_nil hCne j _)]
          rw [addLoop_none o1 p1 b cs es h0 hf1]
          rw [addLoop_some o2 p2 b _ _ h0 (by rw [hCeq]; exact hf2)]
          rw [hCeq]
          exact equivQ_refl _
        | some ic =>
          obtain ⟨i, c⟩ := ic
          have hgi : (levelChildren b lvl cs)[i]? = some c := by
            simpa using (findChild_some_spec hf1).1
          by_cases hij : j = i
          · subst hij
            have hcd : d = c := by
              rw [hgj] at hgi
              injection hgi
            subst hcd
            have hfA : findChild p1 (levelChildren b lvl
                ((levelChildren b lvl cs).set j (Quadtree.addLoop o2 p2 d))) =
                some (j, Quadtree.addLoop o2 p2 d) := by
              rw [levelChildren_of_ne_nil b lvl (set_ne_nil hCne j _)]
              exact findChild_set_eq hgj (eligible_addLoop p1 o2 p2 d) hf1
            rw [addLoop_some o1 p1 b _ _ h0 hfA]
            rw [levelChildren_of_ne_nil b lvl (set_ne_nil hCne j _)]
            rw [List.set_set]
            rw [addLoop_some o1 p1 b cs es h0 hf1]
            have hfB : findChild p2 (levelChildren b lvl
                ((levelChildren b lvl cs).set j (Quadtree.addLoop o1 p1 d))) =
                some (j, Quadtree.addLoop o1 p1 d) := by
              rw [levelChildren_of_ne_nil b lvl (set_ne_nil hCne j _)]
              exact findChild_set_eq hgj (eligible_addLoop p2 o1 p1 d) hf2
            rw [addLoop_some o2 p2 b _ _ h0 hfB]
            rw [levelChildren_of_ne_nil b lvl (set_ne_nil hCne j _)]
            rw [List.set_set]
            have hdec := qmeasure_lt_levelChildren (List.getElem?_mem hgj) h0 es
            refine EquivQ.node _ _ _ _ _ _ (List.Perm.refl es) ?_
            exact forall₂_set equivQ_refl _ j (addLoop_comm o1 o2 p1 p2 d)
          · have hfA : findChild p1 (levelChildren b lvl
                ((levelChildren b lvl cs).set j (Quadtree.addLoop o2 p2 d))) =
                some (i, c) := by
              rw [levelChildren_of_ne_nil b lvl (set_ne_nil hCne j _)]
              exact findChild_set_ne hgj (eligible_addLoop p1 o2 p2 d) hij hf1
            rw [addLoop_some o1 p1 b _ _ h0 hfA]
            rw [levelChildren_of_ne_nil b lvl (set_ne_nil hCne j _)]
            rw [addLoop_some o1 p1 b cs es h0 hf1]
            have hfB : findChild p2 (levelChildren b lvl
                ((levelChildren b lvl cs).set i (Quadtree.addLoop o1 p1 c))) =
                some (j, d) := by
              rw [levelChildren_of_ne_nil b lvl (set_ne_nil hCne i _)]
              exact findChild_set_ne hgi (eligible_addLoop p2 o1 p1 c)
                (fun h => hij h.symm) hf2
            rw [addLoop_some o2 p2 b _ _ h0 hfB]
            rw [levelChildren_of_ne_nil b lvl (set_ne_nil hCne i _)]
            rw [List.set_comm _ _ _ hij]
            exact equivQ_refl _
termination_by t => t.qmeasure
decreasing_by
  exact qmeasure_lt_levelChildren (List.getElem?_mem hgj) h0 es

theorem collectLoop_cons {α : Type} (pos : Pos) (ws : List (Quadtree α))
    (h : ws.isEmpty = false) :
    Quadtree.collectLoop pos ws =
      ((ws.filter (fun t => aabbGePos t.aabb pos)).map Quadtree.entries).flatten ++
        Quadtree.collectLoop pos
          (((ws.filter (fun t => aabbGePos t.aabb pos)).map
            Quadtree.child_nodes).flatten) := by
  rw [Quadtree.collectLoop]
  rw [dif_neg (by simp [h])]

theorem forall₂_filter_congr {β : Type} {R : β → β → Prop} {p q : β → Bool}
    (hpq : ∀ a b2, R a b2 → p a = q b2) :
    ∀ {l1 l2 : List β}, List.Forall₂ R l1 l2 →
      List.Forall₂ R (l1.filter p) (l2.filter q) := by
  intro l1 l2 h
  induction h with
  | nil => exact List.Forall₂.nil
  | cons hab hrest ih =>
    rename_i a b2 l1a l2a
    rw [List.filter_cons, List.filter_cons, ← hpq a b2 hab]
    cases p a
    · simpa using ih
    · simpa using List.Forall₂.cons hab ih

theorem forall₂_flatten {β : Type} {R : β → β → Prop} :
    ∀ {l1 l2 : List (List β)}, List.Forall₂ (List.Forall₂ R) l1 l2 →
      List.Forall₂ R l1.flatten l2.flatten := by
  intro l1 l2 h
  exact List.rel_flatten h

theorem equivQ_aabb_test {α : Type} (pos : Pos) {x y : Quadtree α}
    (hxy : EquivQ x y) : aabbGePos x.aabb pos = aabbGePos y.aabb pos := by
  unfold Quadtree.aabb
  rw [equivQ_box hxy]

theorem collectLoop_perm {α : Type} (pos : Pos) :
    ∀ (ws1 ws2 : List (Quadtree α)), List.Forall₂ EquivQ ws1 ws2 →
      (Quadtree.collectLoop pos ws1).Perm (Quadtree.collectLoop pos ws2)
  | ws1, ws2, h => by
    cases h with
    | nil => exact List.Perm.refl _
    | cons hab hrest =>
      rename_i a b2 l1 l2
      have hall : List.Forall₂ EquivQ (a :: l1) (b2 :: l2) :=
        List.Forall₂.cons hab hrest
      rw [collectLoop_cons pos (a :: l1) rfl, collectLoop_cons pos (b2 :: l2) rfl]
      have hfil : List.Forall₂ EquivQ
          ((a :: l1).filter (fun t => aabbGePos t.aabb pos))
          ((b2 :: l2).filter (fun t => aabbGePos t.aabb pos)) :=
        forall₂_filter_congr (fun x y hxy => equivQ_aabb_test pos hxy) hall
      refine List.Perm.append ?_ ?_
      · refine List.Perm.flatten_congr ?_
        rw [List.forall₂_map_left_iff, List.forall₂_map_right_iff]
        exact List.Forall₂.imp (fun x y hxy => equivQ_entries_perm hxy) hfil
      · refine collectLoop_perm pos _ _ ?_
        refine forall₂_flatten ?_
        rw [List.forall₂_map_left_iff, List.forall₂_map_right_iff]
        exact List.Forall₂.imp (fun x y hxy => equivQ_children hxy) hfil
termination_by ws1 => qsizeList ws1
decreasing_by
  exact collect_step_lt _ (by simp)

theorem get_items_perm {α : Type} {t1 t2 : Quadtree α} (h : EquivQ t1 t2)
    (pos : Pos) (ov : Bool) :
    (t1.get_items pos ov).Perm (t2.get_items pos ov) := by
  unfold Quadtree.get_items
  exact ((collectLoop_perm pos [t1] [t2]
    (List.Forall₂.cons h List.Forall₂.nil)).filter _).map _

theorem add_snd {α : Type} (t : Quadtree α) (o : α) (p : Pos) :
    (t.add o p).2 =
      if Quadtree.eligible p t then Quadtree.addLoop o p t else t := by
  unfold Quadtree.add
  split <;> rfl

theorem add_comm_equiv {α : Type} (t : Quadtree α) (o1 o2 : α) (p1 p2 : Pos) :
    EquivQ (((t.add o1 p1).2.add o2 p2).2) (((t.add o2 p2).2.add o1 p1).2) := by
  cases h1 : Quadtree.eligible p1 t <;> cases h2 : Quadtree.eligible p2 t <;>
    simp only [add_snd, eligible_addLoop, h1, h2, Bool.false_eq_true, if_true,
      if_false] <;>
    first
      | exact addLoop_comm o2 o1 p2 p1 t
      | exact equivQ_refl _

/-- C6: inserting A at pa then B at pb, or B then A, into an empty quadtree
over the same box and max_level yields trees whose get_items results are
permutations of each other for every query, so any query targeting either
object individually returns the same result; placement depends only on the
position and the fixed region and depth. -/
theorem C6_insertion_order (b : Box4) (lvl : ℕ) (A B : ℕ) (pa pb q : Pos)
    (ov : Bool) :
    (((((Quadtree.empty b lvl : Quadtree ℕ).add A pa).2.add B pb).2.get_items q
        ov).Perm
      ((((Quadtree.empty b lvl : Quadtree ℕ).add B pb).2.add A pa).2.get_items q
        ov)) ∧
    ∀ o : ℕ,
      o ∈ (((Quadtree.empty b lvl : Quadtree ℕ).add A pa).2.add B pb).2.get_items
        q ov ↔
      o ∈ (((Quadtree.empty b lvl : Quadtree ℕ).add B pb).2.add A pa).2.get_items
        q ov := by
  have hperm :=
    get_items_perm (add_comm_equiv (Quadtree.empty b lvl) A B pa pb) q ov
  exact ⟨hperm, fun o => hperm.mem_iff⟩

mutual

/-- The structural invariant of quadtree nodes: children are absent or
exactly the four quadrant children one level down, and entries sit only at
nodes with exhausted depth or whose populated children all fail the
containment test for the entry's position. -/
def Quadtree.invB {α : Type} : Quadtree α → Bool
  | Quadtree.node b cs es lvl =>
    (cs.isEmpty ||
      (decide (cs.length = 4) &&
       decide (cs.map Quadtree.box = (childrenBoxes b).map AABB.box) &&
       cs.all (fun c => decide (c.max_level = lvl - 1)))) &&
    es.all (fun e =>
      decide (lvl = 0) ||
      (!cs.isEmpty && cs.all (fun c => !Quadtree.eligible e.2 c))) &&
    invBList cs

/-- The invariant over a list of children. -/
def invBList {α : Type} : List (Quadtree α) → Bool
  | [] => true
  | c :: rest => Quadtree.invB c && invBList rest

end

theorem invBList_iff {α : Type} :
    ∀ cs : List (Quadtree α), invBList cs = true ↔ ∀ c ∈ cs, c.invB = true
  | [] => by simp [invBList]
  | c :: rest => by
    rw [invBList, Bool.and_eq_true, invBList_iff rest]
    simp

theorem invB_node_iff {α : Type} (b : Box4) (cs : List (Quadtree α))
    (es : List (α × Pos)) (lvl : ℕ) :
    (Quadtree.node b cs es lvl).invB = true ↔
      (cs = [] ∨ (cs.length = 4 ∧
        cs.map Quadtree.box = (childrenBoxes b).map AABB.box ∧
        ∀ c ∈ cs, c.max_level = lvl - 1)) ∧
      (∀ e ∈ es, lvl = 0 ∨
        (cs ≠ [] ∧ ∀ c ∈ cs, Quadtree.eligible e.2 c = false)) ∧
      ∀ c ∈ cs, c.invB = true := by
  rw [Quadtree.invB]
  simp only [Bool.and_eq_true, Bool.or_eq_true, decide_eq_true_eq,
    List.all_eq_true, List.isEmpty_iff, List.isEmpty_eq_false,
    Bool.not_eq_true', invBList_iff, Bool.and_eq_true]
  constructor
  · rintro ⟨⟨h1, h2⟩, h3⟩
    refine ⟨?_, ?_, h3⟩
    · rcases h1 with h1 | ⟨⟨h1a, h1b⟩, h1c⟩
      · exact Or.inl h1
      · exact Or.inr ⟨h1a, h1b, h1c⟩
    · intro e he
      rcases h2 e he with h | ⟨ha, hb⟩
      · exact Or.inl h
      · exact Or.inr ⟨ha, hb⟩
  · rintro ⟨h1, h2, h3⟩
    refine ⟨⟨?_, ?_⟩, h3⟩
    · rcases h1 with h1 | ⟨h1a, h1b, h1c⟩
      · exact Or.inl h1
      · exact Or.inr ⟨⟨h1a, h1b⟩, h1c⟩
    · intro e he
      rcases h2 e he with h | ⟨ha, hb⟩
      · exact Or.inl h
      · exact Or.inr ⟨ha, hb⟩

theorem invB_fresh {α : Type} (b : Box4) (lvl : ℕ) :
    ∀ c ∈ (freshChildren b lvl : List (Quadtree α)), c.invB = true := by
  intro c hc
  rcases List.mem_map.mp hc with ⟨a, -, rfl⟩
  rw [invB_node_iff]
  refine ⟨Or.inl rfl, ?_, ?_⟩
  · intro e he
    cases he
  · intro c2 hc2
    cases hc2

theorem freshChildren_map_box {α : Type} (b : Box4) (lvl : ℕ) :
    (freshChildren b lvl : List (Quadtree α)).map Quadtree.box =
      (childrenBoxes b).map AABB.box := by
  unfold freshChildren
  rw [List.map_map]
  rfl

theorem freshChildren_levels {α : Type} (b : Box4) (lvl : ℕ) :
    ∀ c ∈ (freshChildren b lvl : List (Quadtree α)), c.max_level = lvl - 1 := by
  intro c hc
  rcases List.mem_map.mp hc with ⟨a, -, rfl⟩
  rfl

theorem map_set_eq {β γ : Type} (f : β → γ) {l : List β} {i : ℕ} {x c : β}
    (hg : l[i]? = some c) (hf : f x = f c) : (l.set i x).map f = l.map f := by
  rw [List.map_set, hf]
  apply set_getElem?_self
  rw [List.getElem?_map, hg]
  rfl

theorem invB_populate {α : Type} (t : Quadtree α) (h : t.invB = true) :
    (Quadtree.populate_children t).invB = true := by
  cases t with
  | node b cs es lvl =>
    unfold Quadtree.populate_children
    show (if cs.isEmpty = true then Quadtree.node b (freshChildren b lvl) es lvl
        else Quadtree.node b cs es lvl).invB = true
    cases hcs : cs.isEmpty with
    | false =>
      rw [if_neg Bool.false_ne_true]
      exact h
    | true =>
      rw [if_pos rfl]
      have hnil : cs = [] := List.isEmpty_iff.mp hcs
      subst hnil
      rw [invB_node_iff] at h ⊢
      obtain ⟨-, hes, -⟩ := h
      refine ⟨Or.inr ⟨freshChildren_length b lvl,
        freshChildren_map_box b lvl, freshChildren_levels b lvl⟩, ?_,
        invB_fresh b lvl⟩
      intro e he
      rcases hes e he with hl | ⟨hne, -⟩
      · exact Or.inl hl
      · exact absurd rfl hne

theorem levelChildren_facts {α : Type} {b : Box4} {cs : List (Quadtree α)}
    {lvl : ℕ}
    (hch : cs = [] ∨ (cs.length = 4 ∧
      cs.map Quadtree.box = (childrenBoxes b).map AABB.box ∧
      ∀ c ∈ cs, c.max_level = lvl - 1))
    (hcsInv : ∀ c ∈ cs, c.invB = true) :
    (levelChildren b lvl cs).length = 4 ∧
    (levelChildren b lvl cs).map Quadtree.box = (childrenBoxes b).map AABB.box ∧
    (∀ c ∈ levelChildren b lvl cs, c.max_level = lvl - 1) ∧
    (∀ c ∈ levelChildren b lvl cs, c.invB = true) := by
  rcases hch with rfl | ⟨h1, h2, h3⟩
  · have hlc : levelChildren b lvl ([] : List (Quadtree α)) = freshChildren b lvl := rfl
    rw [hlc]
    exact ⟨freshChildren_length b lvl, freshChildren_map_box b lvl,
      freshChildren_levels b lvl, invB_fresh b lvl⟩
  · have hne : cs ≠ [] := by
      intro hnil
      rw [hnil] at h1
      cases h1
    rw [levelChildren_of_ne_nil b lvl hne]
    exact ⟨h1, h2, h3, hcsInv⟩

theorem invB_addLoop {α : Type} (obj : α) (pos : Pos) :
    ∀ t : Quadtree α, t.invB = true → (Quadtree.addLoop obj pos t).invB = true
  | Quadtree.node b cs es lvl => by
    intro h
    rw [invB_node_iff] at h
    obtain ⟨hch, hes, hcsInv⟩ := h
    by_cases h0 : lvl = 0
    · subst h0
      rw [addLoop_lvl0, invB_node_iff]
      refine ⟨hch, ?_, hcsInv⟩
      intro e he
      rcases List.mem_append.mp he with he | he
      · exact hes e he
      · exact Or.inl rfl
    · obtain ⟨hL1, hL2, hL3, hL4⟩ := levelChildren_facts hch hcsInv
      have hLne : levelChildren b lvl cs ≠ [] := by
        intro hnil
        rw [hnil] at hL1
        cases hL1
      have hesL : ∀ e ∈ es, ∀ c2 ∈ levelChildren b lvl cs,
          Quadtree.eligible e.2 c2 = false := by
        intro e he
        rcases hes e he with hl | ⟨hcne, hall⟩
        · exact absurd hl h0
        · rw [levelChildren_of_ne_nil b lvl hcne]
          exact hall
      cases hf : findChild pos (levelChildren b lvl cs) with
      | none =>
        rw [addLoop_none obj pos b cs es h0 hf, invB_node_iff]
        have hnone := (findChild_none_iff pos (levelChildren b lvl cs)).mp hf
        refine ⟨Or.inr ⟨hL1, hL2, hL3⟩, ?_, hL4⟩
        intro e he
        rcases List.mem_append.mp he with he | he
        · exact Or.inr ⟨hLne, hesL e he⟩
        · rcases List.mem_singleton.mp he with rfl
          exact Or.inr ⟨hLne, hnone⟩
      | some ic =>
        obtain ⟨i, c⟩ := ic
        have hgi : (levelChildren b lvl cs)[i]? = some c := by
          simpa using (findChild_some_spec hf).1
        have hmem : c ∈ levelChildren b lvl cs := List.getElem?_mem hgi
        rw [addLoop_some obj pos b cs es h0 hf, invB_node_iff]
        refine ⟨Or.inr ⟨?_, ?_, ?_⟩, ?_, ?_⟩
        · rw [List.length_set]
          exact hL1
        · exact map_set_eq Quadtree.box hgi (addLoop_box obj pos c) ▸ hL2
        · intro c2 hc2
          rcases List.mem_or_eq_of_mem_set hc2 with hc2 | rfl
          · exact hL3 c2 hc2
          · rw [addLoop_max_level]
            exact hL3 c hmem
        · intro e he
          refine Or.inr ⟨set_ne_nil hLne i _, ?_⟩
          intro c2 hc2
          rcases List.mem_or_eq_of_mem_set hc2 with hc2 | rfl
          · exact hesL e he c2 hc2
          · rw [eligible_addLoop]
            exact hesL e he c hmem
        · intro c2 hc2
          rcases List.mem_or_eq_of_mem_set hc2 with hc2 | rfl
          · exact hL4 c2 hc2
          · exact invB_addLoop obj pos c (hL4 c hmem)
termination_by t => t.qmeasure
decreasing_by
  exact qmeasure_lt_levelChildren hmem h0 es

/-- C7: the structural invariant of the quadtree holds for a freshly
constructed node and is preserved by add and by populate_children
(get_items is read-only in the model and returns a list, leaving the tree
untouched): every node has zero or exactly four children, the four
children are the quadrant boxes at one level less, and entries sit only at
nodes whose depth is exhausted or whose populated children all fail the
containment test for the entry's position. -/
theorem C7_invariant_preserved (b : Box4) (lvl : ℕ) (t : Quadtree ℕ)
    (obj : ℕ) (pos : Pos) :
    (Quadtree.empty b lvl : Quadtree ℕ).invB = true ∧
    (t.invB = true → ((t.add obj pos).2).invB = true) ∧
    (t.invB = true → (Quadtree.populate_children t).invB = true) := by
  refine ⟨?_, ?_, fun h => invB_populate t h⟩
  · rw [Quadtree.empty, invB_node_iff]
    refine ⟨Or.inl rfl, ?_, ?_⟩
    · intro e he
      cases he
    · intro c hc
      cases hc
  · intro h
    rw [add_snd]
    split
    · exact invB_addLoop obj pos t h
    · exact h

/-- Closed instance of C7: the invariant holds after adding an entry that
splits the unit square once. -/
theorem C7_invariant_preserved_witness :
    (((Quadtree.empty ⟨0, 0, 1, 1⟩ 1 : Quadtree ℕ).add 3
        (Pos.pt (1/4) (1/4))).2).invB = true :=
  (C7_invariant_preserved ⟨0, 0, 1, 1⟩ 1 (Quadtree.empty ⟨0, 0, 1, 1⟩ 1) 3
    (Pos.pt (1/4) (1/4))).2.1 (by decide)
